import Mathlib

/-!
Verification of the WWASD relay (`app.py` and `_archive/blofin_hardening.py`).

Python strings are modelled as lists of Unicode code points (`List Nat`),
which is Python's own data model for `str`.  The string operations used by
the relay (`.strip()`, `.upper()`, `.lower()`, `.replace(c, "")`,
`.split(c, 1)`, `in`, `.startswith`, `.endswith`) are transcribed below.
`.upper()` / `.lower()` are modelled on their ASCII fragment (the code-point
ranges 65-90 / 97-122); the relay's ticker data is ASCII.
-/

/-- A Python string: a sequence of Unicode code points. -/
abbrev Str := List Nat

/-- Build a `Str` from a Lean string literal (for concrete inputs). -/
def str (s : String) : Str := s.data.map Char.toNat

/-- Python `str.strip` whitespace set (Unicode whitespace code points). -/
def isPySpace (n : Nat) : Bool :=
  (9 ≤ n && n ≤ 13) || (28 ≤ n && n ≤ 32) || n == 133 || n == 160 ||
  n == 5760 || (8192 ≤ n && n ≤ 8202) || n == 8232 || n == 8233 ||
  n == 8239 || n == 8287 || n == 12288

/-- ASCII fragment of Python `str.upper`, per code point. -/
def pyUpperChar (n : Nat) : Nat := if 97 ≤ n ∧ n ≤ 122 then n - 32 else n

/-- ASCII fragment of Python `str.lower`, per code point. -/
def pyLowerChar (n : Nat) : Nat := if 65 ≤ n ∧ n ≤ 90 then n + 32 else n

/-- Python `s.upper()`. -/
def pyUpper (s : Str) : Str := s.map pyUpperChar

/-- Python `s.lower()`. -/
def pyLower (s : Str) : Str := s.map pyLowerChar

/-- Python `s.strip()`: drop leading and trailing whitespace. -/
def pyStrip (s : Str) : Str :=
  ((s.dropWhile isPySpace).reverse.dropWhile isPySpace).reverse

/-- Python `s.replace(c, "")` for a single-character pattern `c`:
removes every occurrence of the code point. -/
def pyRemove (c : Nat) (s : Str) : Str := s.filter (fun a => a ≠ c)

/-- Python `s.split(c, 1)` for a single-character separator that occurs in
`s`: the part before the first occurrence and the part after it. -/
def splitFirst (c : Nat) : Str → Str × Str
  | [] => ([], [])
  | a :: t =>
      if a = c then ([], t)
      else
        let p := splitFirst c t
        (a :: p.1, p.2)

/-- Python `pat in s` for strings: contiguous substring test. -/
def isSubstrOf (pat : Str) : Str → Bool
  | [] => pat.isEmpty
  | s@(_ :: t) => pat.isPrefixOf s || isSubstrOf pat t

/-- The cleanup prelude of `canonical_symbol`:
`(sym or "").strip().upper().replace(" ", "")`. -/
def symClean (sym : Str) : Str := pyRemove 32 (pyUpper (pyStrip sym))

/-- `app.py` `looks_like_macro_bare`: heuristic for bare macro tickers.
`u = sym_no_ns.upper(); u.startswith(("TOTAL",)) or u.endswith((".D", ".C"))`. -/
def looks_like_macro_bare (sym_no_ns : Str) : Bool :=
  let u := pyUpper sym_no_ns
  (str "TOTAL").isPrefixOf u || (str ".D").isSuffixOf u || (str ".C").isSuffixOf u

/-- Body of `app.py` `canonical_symbol` after the cleanup prelude; the
argument is the cleaned string `s`.  Code point 58 is `:`, 47 is `/`. -/
def canonCore (s : Str) : Str :=
  if s = [] then s
  else if s.contains 58 then
    if (splitFirst 58 s).1 = str "BLOFIN"
    then (splitFirst 58 s).1 ++ 58 :: pyRemove 47 (splitFirst 58 s).2
    else (splitFirst 58 s).1 ++ 58 :: (splitFirst 58 s).2
  else if looks_like_macro_bare s then str "CRYPTOCAP:" ++ s
  else if isSubstrOf (str "/USDT.P") s then str "BLOFIN:" ++ pyRemove 47 s
  else if (str "USDT.P").isSuffixOf s then str "BLOFIN:" ++ s
  else s

/-- `app.py` `canonical_symbol`: normalize TradingView ticker forms into a
canonical key. -/
def canonical_symbol (sym : Str) : Str := canonCore (symClean sym)

/-! ### Model of the relay application (`app.py`) -/

/-- A TradingView payload / stored record: the JSON dict, modelled by the
keys the relay reads or writes, each `none` when the key is absent.  The
handler renders `type` and `symbol` through Python `str(...)`, so they are
modelled as strings.  All remaining keys are carried opaquely in `extra`.
An ingested body may itself carry an `is_fresh` key, hence the field. -/
structure TvRecord where
  type? : Option Str
  symbol? : Option Str
  token? : Option Str
  server_received_ms? : Option Int
  raw_symbol? : Option Str
  is_fresh? : Option Bool
  extra : List (Str × Str)
deriving DecidableEq

/-- Server configuration read from environment variables at startup
(watchlists already normalized by `_split_env_list`, and the optional
shared secret). -/
structure Config where
  GREEN_LIST : List Str
  MACRO_LIST : List Str
  FULL_LIST : List Str
  AUTH_SHARED_SECRET : Str
deriving DecidableEq

/-- The two in-memory caches of `app.py`: the per-symbol dict
`state_by_symbol` (insertion-ordered, as Python dicts are) and the
singleton `blofin_positions_push`. -/
structure AppState where
  state_by_symbol : List (Str × TvRecord)
  blofin_positions_push : Option TvRecord
deriving DecidableEq

/-- Python dict assignment `d[k] = v`: overwrite the key in place if
present, else append at the end (insertion order). -/
def dictSet (k : Str) (v : TvRecord) : List (Str × TvRecord) → List (Str × TvRecord)
  | [] => [(k, v)]
  | (k', v') :: t => if k' = k then (k, v) :: t else (k', v') :: dictSet k v t

/-- Python dict lookup `d.get(k)`. -/
def dictGet (k : Str) : List (Str × TvRecord) → Option TvRecord
  | [] => none
  | (k', v') :: t => if k' = k then some v' else dictGet k t

/-- An `HTTPException(status_code=...)` raised by a handler. -/
structure HErr where
  status_code : Nat
deriving DecidableEq

deriving instance DecidableEq for Except

/-- Response body of `POST /tv`: `ok` is always `True`; `stored` is present
for the two recognized types; `ignored` marks the accept-and-discard path. -/
structure TvIngestResp where
  ok : Bool
  stored : Option Str
  ignored : Bool
deriving DecidableEq

/-- Python truthiness of an optional string (`None` and `""` are falsy). -/
def truthyStr : Option Str → Bool
  | none => false
  | some s => decide (s ≠ [])

/-- `app.py` `require_secret_if_set`, as the predicate "the function
returns instead of raising": with no configured secret all requests pass;
otherwise some supplied token (query `?token=` or JSON `token`) must be
truthy and equal to the secret. -/
def require_secret_ok (cfg : Config) (qsToken bodyToken : Option Str) : Bool :=
  if cfg.AUTH_SHARED_SECRET = [] then true
  else (truthyStr qsToken || truthyStr bodyToken)
    && (decide (qsToken = some cfg.AUTH_SHARED_SECRET)
        || decide (bodyToken = some cfg.AUTH_SHARED_SECRET))

/-- `app.py` `tv_ingest` (`POST /tv`), after the body has been parsed into
`body`; `now` is `now_ms()` at receipt.  Returns the raised
`HTTPException` or the new state and the response. -/
def tv_ingest (cfg : Config) (st : AppState) (qsToken : Option Str) (body : TvRecord)
    (now : Int) : Except HErr (AppState × TvIngestResp) :=
  let data : TvRecord := { body with server_received_ms? := some now }
  if require_secret_ok cfg qsToken data.token? = false then .error ⟨403⟩
  else
    let typ := pyUpper (data.type?.getD [])
    if typ = str "WWASD_STATE" then
      let raw_sym := pyStrip (data.symbol?.getD [])
      if raw_sym = [] then .error ⟨400⟩
      else
        let sym := canonical_symbol raw_sym
        let data1 : TvRecord :=
          if pyUpper raw_sym ≠ sym then { data with raw_symbol? := some (pyUpper raw_sym) }
          else data
        let data2 : TvRecord := { data1 with symbol? := some sym }
        .ok ({ st with state_by_symbol := dictSet sym data2 st.state_by_symbol },
          ⟨true, some sym, false⟩)
    else if typ = str "BLOFIN_POSITIONS" then
      .ok ({ st with blofin_positions_push := some data }, ⟨true, some (str "blofin_positions"), false⟩)
    else
      .ok (st, ⟨true, none, true⟩)

/-- `app.py` `_filter_symbols`: resolve a watchlist name to its configured
symbol set, `none` for any other name. -/
def _filter_symbols (cfg : Config) (list_name : Str) : Option (List Str) :=
  let ln := pyStrip (pyLower list_name)
  if ln = str "green" then some cfg.GREEN_LIST
  else if ln = str "macro" then some cfg.MACRO_LIST
  else if ln = str "full" then some cfg.FULL_LIST
  else none

/-- The per-item work of `tv_latest`: `out = dict(item)` (a copy) followed
by `out["is_fresh"] = (now - item.get("server_received_ms", now)) <=
max_age_secs * 1000`. -/
def annotate (now max_age_secs : Int) (item : TvRecord) : TvRecord :=
  { item with
    is_fresh? := some (decide (now - (item.server_received_ms?.getD now) ≤ max_age_secs * 1000)) }

/-- Python string `<=` (code-point lexicographic), the sort order of the
`tv_latest` items (sort key `x.get("symbol", "")`). -/
def strLe : Str → Str → Bool
  | [], _ => true
  | _ :: _, [] => false
  | a :: as, b :: bs => if a = b then strLe as bs else decide (a < b)

/-- Insert an element before the first element whose key is not strictly
smaller (the insertion step of a stable sort). -/
def insertByKey (le : TvRecord → TvRecord → Bool) (x : TvRecord) :
    List TvRecord → List TvRecord
  | [] => [x]
  | y :: t => if le y x && !(le x y) then y :: insertByKey le x t else x :: y :: t

/-- Stable sort (insertion sort), modelling Python's stable
`list.sort(key=...)`. -/
def sortByKey (le : TvRecord → TvRecord → Bool) : List TvRecord → List TvRecord
  | [] => []
  | x :: t => insertByKey le x (sortByKey le t)

/-- `app.py` `tv_latest` (`GET /tv/latest`): optionally filter the stored
records by the canonicalized watchlist, annotate a copy of each with
`is_fresh`, sort by symbol, and return `(count, items)`. -/
def tv_latest (cfg : Config) (st : AppState) (list : Str) (max_age_secs : Int)
    (now : Int) : Nat × List TvRecord :=
  let sel := (_filter_symbols cfg list).map (List.map canonical_symbol)
  let items0 := st.state_by_symbol.filterMap (fun kv =>
    match sel with
    | some s => if kv.1 ∈ s then some (annotate now max_age_secs kv.2) else none
    | none => some (annotate now max_age_secs kv.2))
  let items := sortByKey (fun a b => strLe (a.symbol?.getD []) (b.symbol?.getD [])) items0
  (items.length, items)

/-- The `GET /tv/latest` handler as a state transition: the handler body
performs no assignment to either store (it copies each record before
annotating it), so the state it leaves behind is the state it received. -/
def tv_latest_handler (cfg : Config) (st : AppState) (list : Str) (max_age_secs : Int)
    (now : Int) : AppState × (Nat × List TvRecord) :=
  (st, tv_latest cfg st list max_age_secs now)

/-- A JSON value, for stating which keys a response object carries. -/
inductive JVal where
  | jnull : JVal
  | jbool : Bool → JVal
  | jint : Int → JVal
  | jrec : TvRecord → JVal
deriving DecidableEq

/-- `app.py` `blofin_latest` (`GET /blofin/latest`): the literal response
object, as an ordered key/value list.  `if not blofin_positions_push`
takes the falsy branch exactly when no push is stored (a stored push is a
dict carrying at least `server_received_ms`, hence truthy).  The function
is total: it never raises. -/
def blofin_latest (st : AppState) (now : Int) (max_age_secs : Int) : List (Str × JVal) :=
  match st.blofin_positions_push with
  | none => [(str "fresh", .jbool false), (str "ts", .jnull), (str "data", .jnull)]
  | some p =>
      let fresh := decide (now - (p.server_received_ms?.getD now) ≤ max_age_secs * 1000)
      [(str "fresh", .jbool fresh),
       (str "ts", match p.server_received_ms? with | some t => .jint t | none => .jnull),
       (str "data", .jrec p)]

/-- One `POST /tv` request, for reachability of states through the API. -/
structure TvEvent where
  qsToken : Option Str
  body : TvRecord
  now : Int
deriving DecidableEq

/-- Apply one `POST /tv` request to the state (a raised `HTTPException`
leaves the stores untouched). -/
def stepTv (cfg : Config) (st : AppState) (e : TvEvent) : AppState :=
  match tv_ingest cfg st e.qsToken e.body e.now with
  | .ok (st', _) => st'
  | .error _ => st

/-- The state after a sequence of `POST /tv` requests from startup (both
caches start empty). -/
def runTv (cfg : Config) (es : List TvEvent) : AppState :=
  es.foldl (stepTv cfg) ⟨[], none⟩

/-! ### Model of the archived hardening store (`_archive/blofin_hardening.py`) -/

/-- A pushed `BLOFIN_POSITIONS` payload for the archived store: its `ts`
key (if any) plus opaque remaining content. -/
structure BlofinPayload where
  ts? : Option Int
  rest : List (Str × Str)
deriving DecidableEq

/-- The `self.last` envelope of `_BlofinStore` (also the JSON object
persisted to disk): initially `fresh=False, ts=None, data=None`; after an
update it carries all four keys.  The float `age_sec` added by `latest`
is outside the model (it never feeds back into the store). -/
structure BlofinLast where
  fresh : Bool
  ts : Option Int
  data : Option BlofinPayload
  server_received_ms : Option Int
deriving DecidableEq

/-- The initial in-memory envelope of `_BlofinStore.__init__`. -/
def blofinLast0 : BlofinLast := ⟨false, none, none, none⟩

/-- Content of a file: a whole JSON serialization of an envelope
(`json.load` returns exactly the serialized object) or a truncated,
unparseable write (`json.load` raises). -/
inductive FileContent where
  | whole : BlofinLast → FileContent
  | truncated : FileContent
deriving DecidableEq

/-- The slice of the filesystem the store touches: the canonical
`DATA_PATH` file and the `DATA_PATH + ".tmp"` file (`none` = absent). -/
structure Disk where
  canonicalFile : Option FileContent
  tmpFile : Option FileContent
deriving DecidableEq

/-- Outcome of the I/O inside `_write_atomic`: both steps succeed, the
temp-file write raises midway, or `os.replace` raises. -/
inductive WriteOutcome where
  | ok : WriteOutcome
  | failTmp : WriteOutcome
  | failReplace : WriteOutcome
deriving DecidableEq

/-- `_BlofinStore._write_atomic`: write the temp file (not atomic — a
reader could see it truncated mid-write), then `os.replace` it over the
canonical path (atomic).  Returns the sequence of observable disk states;
the canonical path changes only in the final rename step. -/
def write_atomic (d : Disk) (o : BlofinLast) : WriteOutcome → List Disk
  | .ok => [⟨d.canonicalFile, some .truncated⟩, ⟨d.canonicalFile, some (.whole o)⟩,
      ⟨some (.whole o), none⟩]
  | .failTmp => [⟨d.canonicalFile, some .truncated⟩]
  | .failReplace => [⟨d.canonicalFile, some .truncated⟩, ⟨d.canonicalFile, some (.whole o)⟩]

/-- `_BlofinStore.update`: build the envelope (`ts = int(payload.get("ts")
or now)`), install it in memory, then attempt the atomic write, swallowing
any disk failure.  Returns the new in-memory envelope, the final disk
state, and the trace of intermediate disk states. -/
def blofinStore_update (d : Disk) (payload : BlofinPayload) (now : Int)
    (w : WriteOutcome) : BlofinLast × Disk × List Disk :=
  let ts : Int :=
    match payload.ts? with
    | some t => if t = 0 then now else t
    | none => now
  let obj : BlofinLast := ⟨true, some ts, some payload, some now⟩
  let trace := write_atomic d obj w
  (obj, trace.getLastD d, trace)

/-- Python truthiness of a payload dict (`{}` is falsy). -/
def payloadTruthy (p : BlofinPayload) : Bool := !(decide (p.ts? = none ∧ p.rest = []))

/-- Python truthiness of the optional `ts` value (`None` and `0` falsy). -/
def tsTruthy : Option Int → Bool
  | none => false
  | some t => decide (t ≠ 0)

/-- `_BlofinStore.latest`: copy the envelope and recompute `fresh` at read
time as `bool(data) and bool(ts) and now - ts <= TTL_SEC * 1000`. -/
def blofinStore_latest (last : BlofinLast) (now ttl_sec : Int) : BlofinLast :=
  let has_data : Bool :=
    match last.data with
    | none => false
    | some p => payloadTruthy p
  let fresh := tsTruthy last.ts && decide ((now - last.ts.getD 0) ≤ ttl_sec * 1000)
  { last with fresh := has_data && fresh }

/-- `_BlofinStore.__init__` over a given disk: start from the default
envelope and try `json.load` on the canonical path; a missing or
unparseable file keeps the default. -/
def blofinStore_init (d : Disk) : BlofinLast :=
  match d.canonicalFile with
  | some (.whole o) => o
  | _ => blofinLast0

/-! ### Concrete fixtures for counterexamples and witnesses -/

/-- Configuration with all watchlists unset and no shared secret. -/
def cfg0 : Config := ⟨[], [], [], []⟩

/-- The startup state: both caches empty. -/
def st0 : AppState := ⟨[], none⟩

/-- A stored record for symbol `BTC`, received at time 0. -/
def recBTC : TvRecord := ⟨some (str "WWASD_STATE"), some (str "BTC"), none, some 0, none, none, []⟩

/-- A state holding exactly one per-symbol record. -/
def st1 : AppState := ⟨[(str "BTC", recBTC)], none⟩

/-- A posted body whose `type` is the lowercase string `"wwasd_state"`. -/
def bodyLower : TvRecord := ⟨some (str "wwasd_state"), some (str "BTC"), none, none, none, none, []⟩

/-- A posted body that itself carries an `is_fresh` key. -/
def bodyFresh : TvRecord := ⟨some (str "WWASD_STATE"), some (str "BTC"), none, none, none, some true, []⟩

/-- A posted `WWASD_STATE` body with a slash-form symbol. -/
def bodyLink : TvRecord :=
  ⟨some (str "WWASD_STATE"), some (str "link/usdt.p"), none, none, none, none, []⟩

/-- A posted body with an unrecognized type. -/
def bodyPing : TvRecord := ⟨some (str "PING"), none, none, none, none, none, []⟩

/-! ### Predicates used by the analysis -/

/-- Trailing-whitespace strip: the second half of `pyStrip`. -/
def stripT (s : Str) : Str := (s.reverse.dropWhile isPySpace).reverse

/-- No leading whitespace. -/
def NoLead (l : Str) : Prop := l.dropWhile isPySpace = l

/-- No trailing whitespace. -/
def NoTrail (l : Str) : Prop := stripT l = l

/-- Every code point is a fixed point of the ASCII upper-casing. -/
def UpStable (l : Str) : Prop := ∀ a ∈ l, pyUpperChar a = a

/-- Every record reachable in either cache carries a receipt timestamp. -/
def AllStamped (st : AppState) : Prop :=
  (∀ sym rec, dictGet sym st.state_by_symbol = some rec →
    ∃ t, rec.server_received_ms? = some t) ∧
  (∀ p, st.blofin_positions_push = some p → ∃ t, p.server_received_ms? = some t)

/-- No reachable per-symbol record carries an `is_fresh` key. -/
def NoFreshKey (st : AppState) : Prop :=
  ∀ sym rec, dictGet sym st.state_by_symbol = some rec → rec.is_fresh? = none

/-! ### Helper lemmas for the normalizer analysis -/

lemma pyStrip_eq_stripT (s : Str) : pyStrip s = stripT (s.dropWhile isPySpace) := rfl

lemma pyUpperChar_idem (n : Nat) : pyUpperChar (pyUpperChar n) = pyUpperChar n := by
  unfold pyUpperChar; split_ifs <;> omega

lemma isPySpace_of_range {n : Nat} (h1 : 65 ≤ n) (h2 : n ≤ 122) : isPySpace n = false := by
  simp only [isPySpace]
  simp only [Bool.or_eq_false_iff, Bool.and_eq_false_iff, decide_eq_false_iff_not, not_le,
    beq_eq_false_iff_ne, ne_eq]
  omega

lemma isPySpace_pyUpperChar (n : Nat) : isPySpace (pyUpperChar n) = isPySpace n := by
  unfold pyUpperChar
  split_ifs with h
  · rw [isPySpace_of_range (by omega) (by omega), isPySpace_of_range (by omega) (by omega)]
  · rfl

lemma map_eq_self_of_mem {f : Nat → Nat} {l : Str} (h : ∀ a ∈ l, f a = a) : l.map f = l := by
  induction l with
  | nil => rfl
  | cons a t ih =>
      simp only [List.map_cons]
      rw [h a (by simp), ih (fun b hb => h b (by simp [hb]))]

lemma dropWhile_idem (p : Nat → Bool) (l : Str) :
    (l.dropWhile p).dropWhile p = l.dropWhile p := by
  induction l with
  | nil => rfl
  | cons a t ih => by_cases h : p a <;> simp [List.dropWhile_cons, h, ih]

lemma stripT_idem (l : Str) : stripT (stripT l) = stripT l := by
  unfold stripT; rw [List.reverse_reverse, dropWhile_idem]

lemma dropWhile_eq_self_reverse {a : Str} (h : stripT a = a) :
    a.reverse.dropWhile isPySpace = a.reverse := by
  have := congrArg List.reverse h
  rwa [stripT, List.reverse_reverse] at this

lemma stripT_append {a : Str} (b : Str) (h : stripT a = a) :
    stripT (a ++ b) = a ++ stripT b := by
  unfold stripT
  rw [List.reverse_append, List.dropWhile_append]
  by_cases hb : (b.reverse.dropWhile isPySpace).isEmpty
  · rw [if_pos hb, dropWhile_eq_self_reverse h, List.reverse_reverse]
    rw [List.isEmpty_iff] at hb
    rw [hb]
    simp
  · rw [if_neg hb, List.reverse_append, List.reverse_reverse]

lemma stripT_singleton_append {l : Str} {c : Nat} (h : isPySpace c = false) :
    stripT (l ++ [c]) = l ++ [c] := by
  unfold stripT
  rw [List.reverse_append, List.reverse_singleton, List.singleton_append,
    List.dropWhile_cons, if_neg (by simp [h]), ← List.singleton_append,
    List.reverse_append, List.reverse_reverse, List.reverse_singleton]

lemma mem_stripT {a : Nat} {l : Str} (h : a ∈ stripT l) : a ∈ l := by
  unfold stripT at h
  rw [List.mem_reverse] at h
  have := (List.dropWhile_sublist (l := l.reverse) isPySpace).mem h
  rwa [List.mem_reverse] at this

lemma stripT_decomp (l : Str) : ∃ u, l = stripT l ++ u := by
  obtain ⟨u, hu⟩ := List.dropWhile_suffix (l := l.reverse) isPySpace
  refine ⟨u.reverse, ?_⟩
  have : l.reverse.reverse = (u ++ l.reverse.dropWhile isPySpace).reverse := by rw [hu]
  rwa [List.reverse_reverse, List.reverse_append] at this

lemma noLead_nil : NoLead [] := rfl

lemma noLead_cons {a : Nat} {t : Str} (h : isPySpace a = false) : NoLead (a :: t) := by
  unfold NoLead
  rw [List.dropWhile_cons, if_neg (by simp [h])]

lemma noLead_head {a : Nat} {t : Str} (h : NoLead (a :: t)) : isPySpace a = false := by
  by_cases hp : isPySpace a
  · exfalso
    unfold NoLead at h
    rw [List.dropWhile_cons, if_pos hp] at h
    have hlen := congrArg List.length h
    have hle := (List.dropWhile_sublist (l := t) isPySpace).length_le
    simp only [List.length_cons] at hlen
    omega
  · simpa using hp

lemma noLead_stripT {l : Str} (h : NoLead l) : NoLead (stripT l) := by
  obtain ⟨u, hu⟩ := stripT_decomp l
  cases hst : stripT l with
  | nil => exact noLead_nil
  | cons a t =>
      have hl : l = a :: (t ++ u) := by rw [hu, hst, List.cons_append]
      have ha := noLead_head (hl ▸ h)
      exact noLead_cons ha

lemma noTrail_last {l : Str} {c : Nat} (h : NoTrail (l ++ [c])) : isPySpace c = false := by
  by_cases hp : isPySpace c
  · exfalso
    unfold NoTrail stripT at h
    rw [List.reverse_append, List.reverse_singleton, List.singleton_append,
      List.dropWhile_cons, if_pos hp] at h
    have hlen := congrArg List.length h
    have hle := (List.dropWhile_sublist (l := l.reverse) isPySpace).length_le
    simp only [List.length_reverse, List.length_append, List.length_singleton] at hlen hle
    omega
  · simpa using hp

lemma noTrail_map_up {l : Str} (h : NoTrail l) : NoTrail (pyUpper l) := by
  induction l using List.reverseRecOn with
  | nil => exact rfl
  | append_singleton l c _ =>
      have hc := noTrail_last h
      unfold pyUpper
      rw [List.map_append, List.map_singleton]
      exact stripT_singleton_append (by rw [isPySpace_pyUpperChar]; exact hc)

lemma noTrail_filter {l : Str} {pq : Nat → Bool} (hkeep : ∀ c, isPySpace c = false → pq c = true)
    (h : NoTrail l) : NoTrail (l.filter pq) := by
  induction l using List.reverseRecOn with
  | nil => exact rfl
  | append_singleton l c _ =>
      have hc := noTrail_last h
      rw [List.filter_append, List.filter_singleton, hkeep c hc]
      exact stripT_singleton_append hc

lemma noLead_map_up {l : Str} (h : NoLead l) : NoLead (pyUpper l) := by
  cases l with
  | nil => exact noLead_nil
  | cons a t =>
      have ha := noLead_head h
      unfold pyUpper
      rw [List.map_cons]
      exact noLead_cons (by rw [isPySpace_pyUpperChar]; exact ha)

lemma noLead_filter {l : Str} {pq : Nat → Bool} (hkeep : ∀ c, isPySpace c = false → pq c = true)
    (h : NoLead l) : NoLead (l.filter pq) := by
  cases l with
  | nil => exact noLead_nil
  | cons a t =>
      have ha := noLead_head h
      rw [List.filter_cons, if_pos (hkeep a ha)]
      exact noLead_cons ha

lemma keep_ne32 : ∀ c : Nat, isPySpace c = false → (decide (c ≠ 32)) = true := by
  intro c hc
  simp only [decide_eq_true_eq, ne_eq]
  intro he
  subst he
  simp [isPySpace] at hc

lemma pyRemove_eq_self {c : Nat} {l : Str} (h : c ∉ l) : pyRemove c l = l := by
  unfold pyRemove
  refine List.filter_eq_self.mpr (fun a ha => ?_)
  simp only [decide_eq_true_eq, ne_eq]
  intro he; exact h (he ▸ ha)

lemma notMem_pyRemove {c : Nat} {l : Str} : c ∉ pyRemove c l := by
  intro h
  have := (List.mem_filter.mp h).2
  simp at this

lemma pyUpper_eq_self {l : Str} (h : UpStable l) : pyUpper l = l :=
  map_eq_self_of_mem h

lemma upStable_filter {l : Str} {p : Nat → Bool} (h : UpStable l) : UpStable (l.filter p) :=
  fun a ha => h a (List.mem_filter.mp ha).1

lemma upStable_stripT {l : Str} (h : UpStable l) : UpStable (stripT l) :=
  fun a ha => h a (mem_stripT ha)

lemma notMem_filter {a : Nat} {l : Str} {p : Nat → Bool} (h : a ∉ l) : a ∉ l.filter p :=
  fun hm => h (List.mem_filter.mp hm).1

lemma notMem_stripT {a : Nat} {l : Str} (h : a ∉ l) : a ∉ stripT l :=
  fun hm => h (mem_stripT hm)

/-! ### Properties of the cleanup prelude `symClean` -/

lemma upStable_symClean (y : Str) : UpStable (symClean y) := by
  intro a ha
  unfold symClean pyRemove pyUpper at ha
  obtain ⟨b, _, hb⟩ := List.mem_map.mp (List.mem_filter.mp ha).1
  rw [← hb]
  exact pyUpperChar_idem b

lemma noSp_symClean (y : Str) : 32 ∉ symClean y := notMem_pyRemove

lemma noLead_symClean (y : Str) : NoLead (symClean y) := by
  have h1 : NoLead (y.dropWhile isPySpace) := dropWhile_idem isPySpace y
  have h2 : NoLead (pyStrip y) := by
    rw [pyStrip_eq_stripT]
    exact noLead_stripT h1
  exact noLead_filter keep_ne32 (noLead_map_up h2)

lemma noTrail_symClean (y : Str) : NoTrail (symClean y) := by
  have h2 : NoTrail (pyStrip y) := stripT_idem _
  exact noTrail_filter keep_ne32 (noTrail_map_up h2)

lemma pyStrip_symClean (y : Str) : pyStrip (symClean y) = symClean y := by
  rw [pyStrip_eq_stripT, noLead_symClean y]
  exact noTrail_symClean y

lemma symClean_symClean (y : Str) : symClean (symClean y) = symClean y := by
  show pyRemove 32 (pyUpper (pyStrip (symClean y))) = symClean y
  rw [pyStrip_symClean, pyUpper_eq_self (upStable_symClean y)]
  exact pyRemove_eq_self (noSp_symClean y)

lemma symClean_append_pre {pre r : Str} (hne : pre ≠ [])
    (h0 : NoLead pre) (h1 : NoTrail pre) (h2 : pyUpper pre = pre)
    (h3 : pyRemove 32 pre = pre) (hUp : UpStable r) (hSp : 32 ∉ r) :
    symClean (pre ++ r) = pre ++ stripT r := by
  have h0' : List.dropWhile isPySpace pre = pre := h0
  have hPreNE : pre.isEmpty = false := by
    cases pre with
    | nil => exact absurd rfl hne
    | cons a t => rfl
  have hd : List.dropWhile isPySpace (pre ++ r) = pre ++ r := by
    rw [List.dropWhile_append, h0', hPreNE]
    simp
  unfold symClean
  rw [pyStrip_eq_stripT, hd, stripT_append r h1]
  unfold pyUpper
  rw [List.map_append]
  unfold pyUpper at h2
  rw [h2, map_eq_self_of_mem (fun a ha => hUp a (mem_stripT ha))]
  unfold pyRemove
  rw [List.filter_append]
  unfold pyRemove at h3
  rw [h3, List.filter_eq_self.mpr (fun a ha => by
    simp only [decide_eq_true_eq, ne_eq]
    intro he
    exact hSp (he ▸ mem_stripT ha))]

/-! ### splitFirst lemmas -/

lemma splitFirst_append_cons {c : Nat} {pre post : Str} (h : c ∉ pre) :
    splitFirst c (pre ++ c :: post) = (pre, post) := by
  induction pre with
  | nil => simp [splitFirst]
  | cons a t ih =>
      have ha : ¬(a = c) := fun e => h (by simp [e])
      rw [List.cons_append]
      unfold splitFirst
      rw [if_neg ha, ih (fun hm => h (List.mem_cons_of_mem _ hm))]

lemma splitFirst_reconstruct {c : Nat} {l : Str} (h : l.contains c = true) :
    l = (splitFirst c l).1 ++ c :: (splitFirst c l).2 ∧ c ∉ (splitFirst c l).1 := by
  induction l with
  | nil => simp at h
  | cons a t ih =>
      by_cases hac : a = c
      · subst hac
        unfold splitFirst
        simp
      · have ht : t.contains c = true := by
          have hm : c ∈ a :: t := List.elem_iff.mp h
          rcases List.mem_cons.mp hm with he | hm2
          · exact absurd he.symm hac
          · exact List.elem_iff.mpr hm2
        obtain ⟨hrec, hns⟩ := ih ht
        constructor
        · unfold splitFirst
          rw [if_neg hac]
          simpa using hrec
        · unfold splitFirst
          rw [if_neg hac]
          intro hm
          rcases List.mem_cons.mp hm with he | hm2
          · exact hac he.symm
          · exact hns hm2

lemma canonCore_colon {nsL restL : Str} (h : 58 ∉ nsL) :
    canonCore (nsL ++ 58 :: restL) =
      nsL ++ 58 :: (if nsL = str "BLOFIN" then pyRemove 47 restL else restL) := by
  have hne : nsL ++ 58 :: restL ≠ [] := by cases nsL <;> simp
  have hc : (nsL ++ 58 :: restL).contains 58 = true :=
    List.elem_iff.mpr (List.mem_append_right _ (List.mem_cons_self _ _))
  unfold canonCore
  rw [if_neg hne, if_pos hc, splitFirst_append_cons h]
  by_cases hB : nsL = str "BLOFIN"
  · rw [if_pos hB, if_pos hB]
  · rw [if_neg hB, if_neg hB]

/-! ### Branch lemmas for `canonical_symbol` -/

lemma strColon_B (z : Str) : str "BLOFIN:" ++ z = str "BLOFIN" ++ 58 :: z := by
  rw [show str "BLOFIN:" = str "BLOFIN" ++ [58] from by decide, List.append_assoc]
  rfl

lemma strColon_C (z : Str) : str "CRYPTOCAP:" ++ z = str "CRYPTOCAP" ++ 58 :: z := by
  rw [show str "CRYPTOCAP:" = str "CRYPTOCAP" ++ [58] from by decide, List.append_assoc]
  rfl

lemma symClean_blofin_append {r : Str} (hUp : UpStable r) (hSp : 32 ∉ r) :
    symClean (str "BLOFIN:" ++ r) = str "BLOFIN:" ++ stripT r :=
  symClean_append_pre (by decide) (by unfold NoLead; decide) (by unfold NoTrail stripT; decide)
    (by decide) (by decide) hUp hSp

lemma canon_blofin_tail {r : Str} (hUp : UpStable r) (hSp : 32 ∉ r) (hSl : 47 ∉ r) :
    canonical_symbol (str "BLOFIN:" ++ r) = str "BLOFIN:" ++ stripT r := by
  unfold canonical_symbol
  rw [symClean_blofin_append hUp hSp, strColon_B, canonCore_colon (by decide), if_pos rfl,
    pyRemove_eq_self (notMem_stripT hSl), ← strColon_B]

lemma canon_blofin_tail_fix {r : Str} (hUp : UpStable r) (hSp : 32 ∉ r) (hSl : 47 ∉ r) :
    canonical_symbol (str "BLOFIN:" ++ stripT r) = str "BLOFIN:" ++ stripT r := by
  rw [canon_blofin_tail (upStable_stripT hUp) (notMem_stripT hSp) (notMem_stripT hSl),
    stripT_idem]

lemma canon_colon_other {nsL restL : Str} (h58 : 58 ∉ nsL) (hB : nsL ≠ str "BLOFIN")
    (hclean : symClean (nsL ++ 58 :: restL) = nsL ++ 58 :: restL) :
    canonical_symbol (nsL ++ 58 :: restL) = nsL ++ 58 :: restL := by
  unfold canonical_symbol
  rw [hclean, canonCore_colon h58, if_neg hB]

/-- The `canonical_symbol` normalizer reaches a fixed point after at most two
applications: the third application changes nothing. -/
theorem canonical_symbol_triple (x : Str) :
    canonical_symbol (canonical_symbol (canonical_symbol x)) =
      canonical_symbol (canonical_symbol x) := by
  have hfx : canonical_symbol x = canonCore (symClean x) := rfl
  have hUp := upStable_symClean x
  have hSp := noSp_symClean x
  have hNT := noTrail_symClean x
  have hCl := symClean_symClean x
  rw [hfx]
  set s := symClean x with hs
  by_cases hE : s = []
  · rw [hE]
    decide
  by_cases hC : s.contains 58 = true
  · obtain ⟨hrec, hns⟩ := splitFirst_reconstruct hC
    set nsL := (splitFirst 58 s).1 with hnsdef
    set restL := (splitFirst 58 s).2 with hrestdef
    have hcore : canonCore s =
        nsL ++ 58 :: (if nsL = str "BLOFIN" then pyRemove 47 restL else restL) := by
      calc canonCore s = canonCore (nsL ++ 58 :: restL) := by rw [← hrec]
        _ = _ := canonCore_colon hns
    have hmemrest : ∀ a ∈ restL, a ∈ s := by
      intro a ha
      rw [hrec]
      exact List.mem_append_right _ (List.mem_cons_of_mem _ ha)
    by_cases hB : nsL = str "BLOFIN"
    · have ho : canonCore s = str "BLOFIN:" ++ pyRemove 47 restL := by
        rw [hcore, if_pos hB, hB, ← strColon_B]
      have hUp' : UpStable (pyRemove 47 restL) :=
        upStable_filter (fun a ha => hUp a (hmemrest a ha))
      have hSp' : 32 ∉ pyRemove 47 restL :=
        notMem_filter (fun hm => hSp (hmemrest 32 hm))
      rw [ho, canon_blofin_tail hUp' hSp' notMem_pyRemove,
        canon_blofin_tail_fix hUp' hSp' notMem_pyRemove]
    · have ho : canonCore s = s := by rw [hcore, if_neg hB, ← hrec]
      rw [ho]
      rw [hrec] at hCl
      have hfs := canon_colon_other hns hB hCl
      rw [← hrec] at hfs
      rw [hfs, hfs]
  by_cases hM : looks_like_macro_bare s = true
  · have ho : canonCore s = str "CRYPTOCAP:" ++ s := by
      unfold canonCore
      rw [if_neg hE, if_pos hM]
      rw [if_neg hC]
    have hclean : symClean (str "CRYPTOCAP:" ++ s) = str "CRYPTOCAP:" ++ s := by
      rw [symClean_append_pre (by decide) (by unfold NoLead; decide)
        (by unfold NoTrail stripT; decide) (by decide) (by decide) hUp hSp, hNT]
    have hfix : canonical_symbol (str "CRYPTOCAP:" ++ s) = str "CRYPTOCAP:" ++ s := by
      have := @canon_colon_other (str "CRYPTOCAP") s (by decide) (by decide)
        (by rw [← strColon_C]; exact hclean)
      rw [← strColon_C] at this
      exact this
    rw [ho, hfix, hfix]
  by_cases hSub : isSubstrOf (str "/USDT.P") s = true
  · have ho : canonCore s = str "BLOFIN:" ++ pyRemove 47 s := by
      unfold canonCore
      rw [if_neg hE, if_pos hSub]
      rw [if_neg hC, if_neg hM]
    have hUp' : UpStable (pyRemove 47 s) := upStable_filter hUp
    have hSp' : 32 ∉ pyRemove 47 s := notMem_filter hSp
    rw [ho, canon_blofin_tail hUp' hSp' notMem_pyRemove,
      canon_blofin_tail_fix hUp' hSp' notMem_pyRemove]
  by_cases hSuf : (str "USDT.P").isSuffixOf s = true
  · have ho : canonCore s = str "BLOFIN:" ++ s := by
      unfold canonCore
      rw [if_neg hE, if_pos hSuf]
      rw [if_neg hC, if_neg hM, if_neg hSub]
    have hclean : symClean (str "BLOFIN:" ++ s) = str "BLOFIN:" ++ s := by
      rw [symClean_blofin_append hUp hSp, hNT]
    have h2 : canonical_symbol (str "BLOFIN:" ++ s) = str "BLOFIN:" ++ pyRemove 47 s := by
      unfold canonical_symbol
      rw [hclean, strColon_B, canonCore_colon (by decide), if_pos rfl, ← strColon_B]
    obtain ⟨s₀, hs0⟩ : ∃ s₀, s₀ ++ str "USDT.P" = s := List.isSuffixOf_iff_suffix.mp hSuf
    have hNT' : NoTrail (pyRemove 47 s) := by
      rw [← hs0]
      unfold pyRemove
      rw [List.filter_append,
        show List.filter (fun a => decide (a ≠ 47)) (str "USDT.P") = str "USDT.P" from by decide,
        show str "USDT.P" = [85, 83, 68, 84, 46] ++ [80] from by decide, ← List.append_assoc]
      exact stripT_singleton_append (by decide)
    have hUp' : UpStable (pyRemove 47 s) := upStable_filter hUp
    have hSp' : 32 ∉ pyRemove 47 s := notMem_filter hSp
    rw [ho, h2, canon_blofin_tail hUp' hSp' notMem_pyRemove, hNT']
  · have ho : canonCore s = s := by
      unfold canonCore
      rw [if_neg hE]
      rw [if_neg hC, if_neg hM, if_neg hSub, if_neg hSuf]
    have hfs : canonical_symbol s = s := by
      unfold canonical_symbol
      rw [hCl]
      exact ho
    rw [ho, hfs, hfs]

-- sanity checks against the docstring examples of `canonical_symbol`
example : canonical_symbol (str "LINK/USDT.P") = str "BLOFIN:LINKUSDT.P" := by decide
example : canonical_symbol (str "TOTAL3") = str "CRYPTOCAP:TOTAL3" := by decide
example : canonical_symbol (str "USDT.D") = str "CRYPTOCAP:USDT.D" := by decide
example : canonical_symbol (str "BLOFIN:LINK/USDT.P") = str "BLOFIN:LINKUSDT.P" := by decide
example : canonical_symbol (str "btc") = str "BTC" := by decide

/-! ### Claim C1: idempotence of the symbol normalizer -/

/-- C1 (counterexample): `canonical_symbol` is not idempotent.  The input
`"A/BUSDT.P"` ends in `USDT.P` but its `/` is not directly before
`USDT.P`, so the first pass keeps the slash (`BLOFIN:A/BUSDT.P`) and the
second pass, entering through the `BLOFIN:` namespace branch, removes it. -/
theorem c1_canonical_symbol_not_idempotent :
    canonical_symbol (canonical_symbol (str "A/BUSDT.P")) ≠
        canonical_symbol (str "A/BUSDT.P") ∧
      canonical_symbol (str "A/BUSDT.P") = str "BLOFIN:A/BUSDT.P" ∧
      canonical_symbol (canonical_symbol (str "A/BUSDT.P")) = str "BLOFIN:ABUSDT.P" := by
  refine ⟨by decide, by decide, by decide⟩

/-- C1 (amended): the normalizer is not idempotent, but it stabilizes after
two applications: for every input string `x`,
`canonical_symbol (canonical_symbol (canonical_symbol x)) =
canonical_symbol (canonical_symbol x)`, i.e. the result of a double
application is a fixed point of the normalizer. -/
theorem c1_canonical_symbol_stabilizes (x : Str) :
    canonical_symbol (canonical_symbol (canonical_symbol x)) =
      canonical_symbol (canonical_symbol x) :=
  canonical_symbol_triple x

/-! ### Claim C5: shape of `GET /blofin/latest` -/

/-- C5 (counterexample): with no prior ingest, `blofin_latest` returns the
three-key object `fresh=False, ts=None, data=None`; there is no
`positions` key in the response, so the claimed shape
`fresh/ts/positions/data` is not what the handler produces. -/
theorem c5_blofin_latest_no_positions_key :
    blofin_latest st0 0 900 =
        [(str "fresh", JVal.jbool false), (str "ts", JVal.jnull), (str "data", JVal.jnull)] ∧
      (str "positions") ∉ (blofin_latest st0 0 900).map Prod.fst := by
  refine ⟨by decide, by decide⟩

/-- C5 (amended): `GET /blofin/latest` never raises (the handler is a total
function) and in every state returns an object with exactly the keys
`fresh`, `ts`, `data` — there is no `positions` key: `fresh` is a boolean,
`ts` an integer or null, `data` the stored push object or null, and with
no prior ingest the response is exactly
`fresh=False, ts=None, data=None`. -/
theorem c5_blofin_latest_shape (st : AppState) (now max_age_secs : Int) :
    (blofin_latest st now max_age_secs).map Prod.fst = [str "fresh", str "ts", str "data"] ∧
      (st.blofin_positions_push = none →
        blofin_latest st now max_age_secs =
          [(str "fresh", JVal.jbool false), (str "ts", JVal.jnull), (str "data", JVal.jnull)]) ∧
      (∃ b tval dval,
        blofin_latest st now max_age_secs =
            [(str "fresh", JVal.jbool b), (str "ts", tval), (str "data", dval)] ∧
          (tval = JVal.jnull ∨ ∃ n, tval = JVal.jint n) ∧
          (dval = JVal.jnull ∨ ∃ q, dval = JVal.jrec q)) := by
  cases hp : st.blofin_positions_push with
  | none =>
      exact ⟨by simp [blofin_latest, hp], fun _ => by simp [blofin_latest, hp],
        false, JVal.jnull, JVal.jnull, by simp [blofin_latest, hp], Or.inl rfl, Or.inl rfl⟩
  | some p =>
      cases ht : p.server_received_ms? with
      | none =>
          exact ⟨by simp [blofin_latest, hp],
            fun h => absurd h (by simp),
            decide (now - (p.server_received_ms?.getD now) ≤ max_age_secs * 1000),
            JVal.jnull, JVal.jrec p, by simp [blofin_latest, hp, ht],
            Or.inl rfl, Or.inr ⟨p, rfl⟩⟩
      | some t =>
          exact ⟨by simp [blofin_latest, hp],
            fun h => absurd h (by simp),
            decide (now - (p.server_received_ms?.getD now) ≤ max_age_secs * 1000),
            JVal.jint t, JVal.jrec p, by simp [blofin_latest, hp, ht],
            Or.inr ⟨t, rfl⟩, Or.inr ⟨p, rfl⟩⟩

/-- C5 (witness): the amended shape theorem applied at the empty state. -/
theorem c5_blofin_latest_shape_witness :
    blofin_latest st0 5 900 =
      [(str "fresh", JVal.jbool false), (str "ts", JVal.jnull), (str "data", JVal.jnull)] :=
  (c5_blofin_latest_shape st0 5 900).2.1 rfl

/-! ### Claim C8: persistence round-trip of the archived store -/

/-- C8: restart recovery.  After `update` successfully persists a payload,
re-running `__init__` over the resulting disk repopulates `self.last` with
exactly the written envelope; and if a later `update` fails on disk
(either while writing the temp file or in the rename), a restart still
recovers the last successfully written envelope. -/
theorem c8_restart_repopulates (d : Disk) (p1 p2 : BlofinPayload) (n1 n2 : Int) :
    blofinStore_init (blofinStore_update d p1 n1 .ok).2.1 = (blofinStore_update d p1 n1 .ok).1 ∧
      blofinStore_init
          (blofinStore_update (blofinStore_update d p1 n1 .ok).2.1 p2 n2 .failTmp).2.1 =
        (blofinStore_update d p1 n1 .ok).1 ∧
      blofinStore_init
          (blofinStore_update (blofinStore_update d p1 n1 .ok).2.1 p2 n2 .failReplace).2.1 =
        (blofinStore_update d p1 n1 .ok).1 := by
  refine ⟨rfl, rfl, rfl⟩

/-! ### Claims C3 and C4: watchlist filtering on `GET /tv/latest` -/

lemma filterMap_some_eq_map {α β : Type} (f : α → β) (l : List α) :
    l.filterMap (fun a => some (f a)) = l.map f := by
  induction l with
  | nil => rfl
  | cons a t ih => simp [List.filterMap_cons, ih]

/-- C3 (counterexample): an unknown watchlist name does not yield an empty
result.  With one stored record, `GET /tv/latest?list=bogus` returns that
record (count 1), because `_filter_symbols` maps unknown names to `None`,
which `tv_latest` treats as "no filtering". -/
theorem c3_unknown_list_not_empty :
    (tv_latest cfg0 st1 (str "bogus") 5400 0).1 = 1 ∧
      (tv_latest cfg0 st1 (str "bogus") 5400 0).2 ≠ [] := by
  refine ⟨by decide, by decide⟩

/-- C3 (amended): a `list` parameter naming anything other than the three
configured watchlists is treated as no filter at all: the read returns
every stored record (annotated with `is_fresh` and sorted by symbol),
identically to a read with an empty `list` parameter — not an empty
result. -/
theorem c3_unknown_list_returns_all (cfg : Config) (st : AppState) (name : Str)
    (w now : Int) (h : _filter_symbols cfg name = none) :
    tv_latest cfg st name w now = tv_latest cfg st (str "") w now ∧
      (tv_latest cfg st name w now).2 =
        sortByKey (fun a b => strLe (a.symbol?.getD []) (b.symbol?.getD []))
          (st.state_by_symbol.map (fun kv => annotate now w kv.2)) := by
  have hempty : _filter_symbols cfg (str "") = none := rfl
  constructor
  · unfold tv_latest
    rw [h, hempty]
  · unfold tv_latest
    rw [h]
    simp only [Option.map_none']
    rw [filterMap_some_eq_map]

/-- C3 (witness): the amended theorem applied at a concrete unknown name. -/
theorem c3_unknown_list_returns_all_witness :
    tv_latest cfg0 st1 (str "bogus") 5400 0 = tv_latest cfg0 st1 (str "") 5400 0 :=
  (c3_unknown_list_returns_all cfg0 st1 (str "bogus") 5400 0 rfl).1

/-- C4 (counterexample): a configured-but-empty watchlist does not fall
back to "all symbols seen so far".  With `GREEN_LIST` empty and one stored
record, `GET /tv/latest?list=green` returns count 0 and no items, even
though the store is not empty. -/
theorem c4_empty_watchlist_no_fallback :
    tv_latest cfg0 st1 (str "green") 5400 0 = (0, []) ∧
      st1.state_by_symbol ≠ [] := by
  refine ⟨by decide, by decide⟩

/-- C4 (amended): a configured watchlist whose symbol set is empty filters
out every stored record: the read returns `count = 0` and `items = []`
regardless of what is stored (the empty set matches nothing; there is no
fallback to "all symbols"). -/
theorem c4_empty_watchlist_returns_empty (cfg : Config) (st : AppState) (name : Str)
    (w now : Int) (h : _filter_symbols cfg name = some []) :
    tv_latest cfg st name w now = (0, []) := by
  unfold tv_latest
  rw [h]
  have hnil : st.state_by_symbol.filterMap (fun _ => none) = ([] : List TvRecord) := by
    induction st.state_by_symbol with
    | nil => rfl
    | cons a t ih => simp [List.filterMap_cons, ih]
  simp [hnil, sortByKey]

/-- C4 (witness): the amended theorem applied with an unseeded green list. -/
theorem c4_empty_watchlist_returns_empty_witness :
    tv_latest cfg0 st1 (str "green") 5400 0 = (0, []) :=
  c4_empty_watchlist_returns_empty cfg0 st1 (str "green") 5400 0 rfl

/-! ### Claim C6: unrecognized `type` is a no-op success -/

/-- C6 (counterexample): the dispatch is case-insensitive, so a `type`
value that differs from `WWASD_STATE` as a string — the lowercase
`"wwasd_state"` — is not discarded: it is processed as a `WWASD_STATE`
ingest and does alter the per-symbol store. -/
theorem c6_lowercase_type_is_processed :
    (bodyLower.type? = some (str "wwasd_state") ∧
        bodyLower.type? ≠ some (str "WWASD_STATE") ∧
        bodyLower.type? ≠ some (str "BLOFIN_POSITIONS")) ∧
      tv_ingest cfg0 st0 none bodyLower 0 =
        .ok (⟨[(str "BTC",
            ⟨some (str "wwasd_state"), some (str "BTC"), none, some 0, none, none, []⟩)], none⟩,
          ⟨true, some (str "BTC"), false⟩) ∧
      stepTv cfg0 st0 ⟨none, bodyLower, 0⟩ ≠ st0 := by
  refine ⟨⟨by decide, by decide, by decide⟩, by decide, by decide⟩

/-- C6 (amended): for a `POST /tv` that passes the shared-secret check and
whose parsed body has a `type` that after upper-casing is neither
`WWASD_STATE` nor `BLOFIN_POSITIONS` (including a missing `type`), the
handler returns the no-op success `ok=True, ignored=True` and leaves both
the per-symbol store and the singleton push unchanged. -/
theorem c6_unrecognized_type_noop (cfg : Config) (st : AppState) (qsToken : Option Str)
    (body : TvRecord) (now : Int)
    (hAuth : require_secret_ok cfg qsToken body.token? = true)
    (h1 : pyUpper (body.type?.getD []) ≠ str "WWASD_STATE")
    (h2 : pyUpper (body.type?.getD []) ≠ str "BLOFIN_POSITIONS") :
    tv_ingest cfg st qsToken body now = .ok (st, ⟨true, none, true⟩) := by
  have hA : ¬(require_secret_ok cfg qsToken body.token? = false) := by
    rw [hAuth]
    simp
  simp only [tv_ingest]
  rw [if_neg hA, if_neg h1, if_neg h2]

/-- C6 (witness): the no-op theorem applied to a `PING`-typed body. -/
theorem c6_unrecognized_type_noop_witness :
    tv_ingest cfg0 st0 none bodyPing 3 = .ok (st0, ⟨true, none, true⟩) :=
  c6_unrecognized_type_noop cfg0 st0 none bodyPing 3 (by decide) (by decide) (by decide)

/-! ### Claim C10: what a `WWASD_STATE` ingest stores -/

/-- C10: an accepted `WWASD_STATE` ingest stores the posted body with
exactly three mutations: `server_received_ms` is set to the receipt time,
`symbol` is replaced by the canonical key of the stripped raw symbol, and
— exactly when the upper-cased raw symbol differs from the canonical key —
the upper-cased raw symbol is preserved under `raw_symbol`; every other
key of the body (type, token, extra content, even a client-sent
`is_fresh`) is stored unchanged, and the record is stored under the
canonical key. -/
theorem c10_wwasd_ingest_stores_annotated_body (cfg : Config) (st : AppState)
    (qsToken : Option Str) (body : TvRecord) (now : Int)
    (hAuth : require_secret_ok cfg qsToken body.token? = true)
    (hTyp : pyUpper (body.type?.getD []) = str "WWASD_STATE")
    (hSym : pyStrip (body.symbol?.getD []) ≠ []) :
    tv_ingest cfg st qsToken body now =
      .ok ({ st with state_by_symbol :=
          (dictSet (canonical_symbol (pyStrip (body.symbol?.getD [])))
            { body with
              server_received_ms? := some now,
              symbol? := some (canonical_symbol (pyStrip (body.symbol?.getD []))),
              raw_symbol? :=
                if pyUpper (pyStrip (body.symbol?.getD [])) ≠
                    canonical_symbol (pyStrip (body.symbol?.getD []))
                then some (pyUpper (pyStrip (body.symbol?.getD [])))
                else body.raw_symbol? }
            st.state_by_symbol) },
        ⟨true, some (canonical_symbol (pyStrip (body.symbol?.getD []))), false⟩) := by
  have hA : ¬(require_secret_ok cfg qsToken body.token? = false) := by
    rw [hAuth]
    simp
  simp only [tv_ingest]
  rw [if_neg hA, if_pos hTyp, if_neg hSym]
  by_cases hc : pyUpper (pyStrip (body.symbol?.getD [])) =
      canonical_symbol (pyStrip (body.symbol?.getD []))
  · simp [hc]
  · simp [hc]

/-- C10 (witness): ingesting a slash-form symbol stores the canonicalized
record, keeping the upper-cased raw symbol under `raw_symbol`. -/
theorem c10_wwasd_ingest_stores_annotated_body_witness :
    tv_ingest cfg0 st0 none bodyLink 7 =
      .ok (⟨[(str "BLOFIN:LINKUSDT.P",
          ⟨some (str "WWASD_STATE"), some (str "BLOFIN:LINKUSDT.P"), none, some 7,
            some (str "LINK/USDT.P"), none, []⟩)], none⟩,
        ⟨true, some (str "BLOFIN:LINKUSDT.P"), false⟩) := by
  have h := c10_wwasd_ingest_stores_annotated_body cfg0 st0 none bodyLink 7
    (by decide) (by decide) (by decide)
  exact h.trans (by decide)

/-! ### Reachability and freshness machinery for C2 and C9 -/

lemma dictGet_dictSet (k k0 : Str) (v : TvRecord) (d : List (Str × TvRecord)) :
    dictGet k0 (dictSet k v d) = if k = k0 then some v else dictGet k0 d := by
  induction d with
  | nil => rfl
  | cons kv t ih =>
      obtain ⟨k2, v2⟩ := kv
      unfold dictSet
      by_cases h1 : k2 = k
      · rw [if_pos h1]
        subst h1
        unfold dictGet
        by_cases h2 : k2 = k0
        · rw [if_pos h2, if_pos h2]
        · rw [if_neg h2, if_neg h2, if_neg h2]
      · rw [if_neg h1]
        unfold dictGet
        by_cases h2 : k2 = k0
        · rw [if_pos h2, if_pos h2, if_neg (fun he => h1 (h2.trans he.symm))]
        · rw [if_neg h2, if_neg h2, ih]

/-- Exhaustive case analysis of `tv_ingest`: it raises 403 or 400, stores a
per-symbol record stamped with the receipt time, stores the push stamped
with the receipt time, or is the accept-and-discard no-op. -/
lemma tv_ingest_cases (cfg : Config) (st : AppState) (qsToken : Option Str)
    (body : TvRecord) (now : Int) :
    tv_ingest cfg st qsToken body now = .error ⟨403⟩ ∨
    tv_ingest cfg st qsToken body now = .error ⟨400⟩ ∨
    (∃ sym rec, tv_ingest cfg st qsToken body now =
        .ok ({ st with state_by_symbol := dictSet sym rec st.state_by_symbol },
          ⟨true, some sym, false⟩) ∧
      rec.server_received_ms? = some now ∧ rec.is_fresh? = body.is_fresh?) ∨
    (∃ rec, tv_ingest cfg st qsToken body now =
        .ok ({ st with blofin_positions_push := some rec },
          ⟨true, some (str "blofin_positions"), false⟩) ∧
      rec.server_received_ms? = some now ∧ rec.is_fresh? = body.is_fresh?) ∨
    tv_ingest cfg st qsToken body now = .ok (st, ⟨true, none, true⟩) := by
  simp only [tv_ingest]
  by_cases hA : require_secret_ok cfg qsToken body.token? = false
  · left
    rw [if_pos hA]
  · rw [if_neg hA]
    by_cases hT : pyUpper (body.type?.getD []) = str "WWASD_STATE"
    · rw [if_pos hT]
      by_cases hS : pyStrip (body.symbol?.getD []) = []
      · right; left
        rw [if_pos hS]
      · rw [if_neg hS]
        right; right; left
        by_cases hc : pyUpper (pyStrip (body.symbol?.getD [])) ≠
            canonical_symbol (pyStrip (body.symbol?.getD []))
        · refine ⟨canonical_symbol (pyStrip (body.symbol?.getD [])),
            { body with
              server_received_ms? := some now,
              symbol? := some (canonical_symbol (pyStrip (body.symbol?.getD []))),
              raw_symbol? := some (pyUpper (pyStrip (body.symbol?.getD []))) }, ?_, rfl, rfl⟩
          rw [if_pos hc]
        · refine ⟨canonical_symbol (pyStrip (body.symbol?.getD [])),
            { body with
              server_received_ms? := some now,
              symbol? := some (canonical_symbol (pyStrip (body.symbol?.getD []))) }, ?_, rfl, rfl⟩
          rw [if_neg hc]
    · rw [if_neg hT]
      by_cases hB : pyUpper (body.type?.getD []) = str "BLOFIN_POSITIONS"
      · right; right; right; left
        rw [if_pos hB]
        exact ⟨_, rfl, rfl, rfl⟩
      · right; right; right; right
        rw [if_neg hB]

lemma allStamped_step (cfg : Config) (st : AppState) (e : TvEvent) (h : AllStamped st) :
    AllStamped (stepTv cfg st e) := by
  unfold stepTv
  rcases tv_ingest_cases cfg st e.qsToken e.body e.now with
    h1 | h1 | ⟨sym, rec, h1, h2, _⟩ | ⟨rec, h1, h2, _⟩ | h1 <;> rw [h1]
  · exact h
  · exact h
  · constructor
    · intro sym' rec' hget
      rw [show ({ st with state_by_symbol := dictSet sym rec st.state_by_symbol } :
          AppState).state_by_symbol = dictSet sym rec st.state_by_symbol from rfl,
        dictGet_dictSet] at hget
      by_cases he : sym = sym'
      · rw [if_pos he] at hget
        cases hget
        exact ⟨e.now, h2⟩
      · rw [if_neg he] at hget
        exact h.1 sym' rec' hget
    · exact h.2
  · refine ⟨h.1, fun p hp => ?_⟩
    rw [show ({ st with blofin_positions_push := some rec } :
        AppState).blofin_positions_push = some rec from rfl] at hp
    cases hp
    exact ⟨e.now, h2⟩
  · exact h

lemma allStamped_run (cfg : Config) (es : List TvEvent) : AllStamped (runTv cfg es) := by
  suffices h : ∀ st, AllStamped st → AllStamped (es.foldl (stepTv cfg) st) by
    refine h _ ⟨fun sym rec hget => ?_, fun p hp => ?_⟩
    · exact absurd hget (by simp [dictGet])
    · exact absurd hp (by simp)
  induction es with
  | nil => exact fun st h => h
  | cons e t ih =>
      intro st h
      rw [List.foldl_cons]
      exact ih _ (allStamped_step cfg st e h)

lemma noFreshKey_step (cfg : Config) (st : AppState) (e : TvEvent)
    (hb : e.body.is_fresh? = none) (h : NoFreshKey st) : NoFreshKey (stepTv cfg st e) := by
  unfold stepTv
  rcases tv_ingest_cases cfg st e.qsToken e.body e.now with
    h1 | h1 | ⟨sym, rec, h1, _, h3⟩ | ⟨rec, h1, _, _⟩ | h1 <;> rw [h1]
  · exact h
  · exact h
  · intro sym' rec' hget
    rw [show ({ st with state_by_symbol := dictSet sym rec st.state_by_symbol } :
        AppState).state_by_symbol = dictSet sym rec st.state_by_symbol from rfl,
      dictGet_dictSet] at hget
    by_cases he : sym = sym'
    · rw [if_pos he] at hget
      cases hget
      rw [h3, hb]
    · rw [if_neg he] at hget
      exact h sym' rec' hget
  · exact h
  · exact h

lemma noFreshKey_run (cfg : Config) (es : List TvEvent)
    (hb : ∀ e ∈ es, e.body.is_fresh? = none) : NoFreshKey (runTv cfg es) := by
  suffices h : ∀ st, NoFreshKey st → NoFreshKey (es.foldl (stepTv cfg) st) by
    exact h _ (fun sym rec hget => absurd hget (by simp [dictGet]))
  induction es with
  | nil => exact fun st h => h
  | cons e t ih =>
      intro st h
      rw [List.foldl_cons]
      exact ih (fun e' he' => hb e' (List.mem_cons_of_mem _ he')) _
        (noFreshKey_step cfg st e (hb e (List.mem_cons_self _ _)) h)

lemma mem_insertByKey {le : TvRecord → TvRecord → Bool} {x a : TvRecord}
    {l : List TvRecord} : a ∈ insertByKey le x l ↔ a = x ∨ a ∈ l := by
  induction l with
  | nil => simp [insertByKey]
  | cons y t ih =>
      unfold insertByKey
      by_cases hc : (le y x && !le x y) = true
      · rw [if_pos hc]
        simp only [List.mem_cons, ih]
        tauto
      · rw [if_neg hc]
        simp only [List.mem_cons]

lemma mem_sortByKey {le : TvRecord → TvRecord → Bool} {a : TvRecord}
    {l : List TvRecord} : a ∈ sortByKey le l ↔ a ∈ l := by
  induction l with
  | nil => simp [sortByKey]
  | cons x t ih =>
      unfold sortByKey
      rw [mem_insertByKey, ih]
      simp

/-- Each item returned by `tv_latest` is the annotation of some stored
record. -/
lemma tv_latest_mem (cfg : Config) (st : AppState) (name : Str) (w now : Int)
    (r : TvRecord) (hr : r ∈ (tv_latest cfg st name w now).2) :
    ∃ rec0, r = annotate now w rec0 := by
  simp only [tv_latest] at hr
  rw [mem_sortByKey] at hr
  obtain ⟨kv, _, hf⟩ := List.mem_filterMap.mp hr
  rcases hsel : (_filter_symbols cfg name).map (List.map canonical_symbol) with _ | s
  · rw [hsel] at hf
    simp only at hf
    cases hf
    exact ⟨kv.2, rfl⟩
  · rw [hsel] at hf
    simp only at hf
    by_cases hm : kv.1 ∈ s
    · rw [if_pos hm] at hf
      cases hf
      exact ⟨kv.2, rfl⟩
    · rw [if_neg hm] at hf
      exact absurd hf (by simp)

/-! ### Claim C2: the freshness predicate -/

/-- C2: freshness.  (1)/(2) Every record reachable through `POST /tv` —
per-symbol or the singleton push — carries a `server_received_ms` receipt
timestamp, so no stored record lacks one.  (3) Each item reported by
`GET /tv/latest` whose record carries timestamp `t` is flagged
`is_fresh = true` iff `now - t <= max_age_secs * 1000`.  (4) In the
archived hardening store, a record with no `ts` is reported not fresh for
every freshness window. -/
theorem c2_freshness_iff (cfg : Config) (es : List TvEvent) (st : AppState) (name : Str)
    (w now : Int) :
    (∀ sym rec, dictGet sym (runTv cfg es).state_by_symbol = some rec →
      ∃ t, rec.server_received_ms? = some t) ∧
    (∀ p, (runTv cfg es).blofin_positions_push = some p →
      ∃ t, p.server_received_ms? = some t) ∧
    (∀ r t, r ∈ (tv_latest cfg st name w now).2 → r.server_received_ms? = some t →
      (r.is_fresh? = some true ↔ now - t ≤ w * 1000)) ∧
    (∀ last now2 ttl, last.ts = none →
      (blofinStore_latest last now2 ttl).fresh = false) := by
  refine ⟨(allStamped_run cfg es).1, (allStamped_run cfg es).2, ?_, ?_⟩
  · intro r t hr hsrm
    obtain ⟨rec0, rfl⟩ := tv_latest_mem cfg st name w now r hr
    have h0 : rec0.server_received_ms? = some t := hsrm
    simp [annotate, h0]
  · intro last now2 ttl h
    simp [blofinStore_latest, h, tsTruthy]

/-- C2 (witness): the freshness-iff applied to a concrete item of a
concrete read. -/
theorem c2_freshness_iff_witness :
    (annotate 0 5400 recBTC).is_fresh? = some true ↔ (0 : Int) - 0 ≤ 5400 * 1000 :=
  (c2_freshness_iff cfg0 [] st1 (str "") 5400 0).2.2.1 (annotate 0 5400 recBTC) 0
    (by decide) (by decide)

/-! ### Claim C9: reads do not write -/

/-- C9 (counterexample): a stored record can contain an `is_fresh` key —
not because a read wrote it, but because the ingest stores the posted body
verbatim apart from its three annotations, so a body that itself carries
`is_fresh` is stored with it. -/
theorem c9_stored_record_with_fresh_key :
    dictGet (str "BTC") (stepTv cfg0 st0 ⟨none, bodyFresh, 0⟩).state_by_symbol =
      some ⟨some (str "WWASD_STATE"), some (str "BTC"), none, some 0, none, some true, []⟩ ∧
    (⟨some (str "WWASD_STATE"), some (str "BTC"), none, some 0, none, some true,
      []⟩ : TvRecord).is_fresh? ≠ none := by
  refine ⟨by decide, by decide⟩

/-- C9 (amended): reads leave the per-symbol store unchanged and set the
computed `is_fresh` flag only on a copy of each record.  When every posted
body is free of an `is_fresh` key, every reachable stored record is too
(reads never add one); and the same stored record can be reported fresh at
one read time and stale at another without any intervening write.  (A body
that itself carries `is_fresh` is stored with it — see the
counterexample.) -/
theorem c9_reads_do_not_write (cfg : Config) (es : List TvEvent) (name : Str) (w now : Int)
    (hb : ∀ e ∈ es, e.body.is_fresh? = none) :
    (tv_latest_handler cfg (runTv cfg es) name w now).1 = runTv cfg es ∧
    (∀ sym rec, dictGet sym (runTv cfg es).state_by_symbol = some rec →
      rec.is_fresh? = none) ∧
    (∃ rec : TvRecord, ∃ t1 t2 mw : Int,
      (annotate t1 mw rec).is_fresh? ≠ (annotate t2 mw rec).is_fresh?) := by
  refine ⟨rfl, noFreshKey_run cfg es hb, recBTC, 0, 1, 0, by decide⟩

/-- C9 (witness): the record stored by a concrete `is_fresh`-free ingest
carries no `is_fresh` key. -/
theorem c9_reads_do_not_write_witness :
    (⟨some (str "wwasd_state"), some (str "BTC"), none, some 0, none, none,
      []⟩ : TvRecord).is_fresh? = none :=
  (c9_reads_do_not_write cfg0 [⟨none, bodyLower, 0⟩] (str "") 5400 0 (by decide)).2.1
    (str "BTC") _ (by decide)

/-! ### Claim C7: atomic persistence with swallowed failures -/

/-- C7: `update` with persistence.  In every outcome the in-memory envelope
is the new payload (fresh, stamped with the receipt time) and subsequent
reads serve it — a disk failure is swallowed.  Along the whole write
sequence the canonical path holds either the old content or the complete
new serialization, never the truncated temp write (the rename is the only
step that changes it), so a concurrent reader of the canonical path never
observes a partial file; and when the write succeeds the canonical path
ends at the new serialization. -/
theorem c7_update_atomic_swallow (d : Disk) (payload : BlofinPayload) (now : Int)
    (w : WriteOutcome) (hd : d.canonicalFile ≠ some FileContent.truncated) :
    ((blofinStore_update d payload now w).1.data = some payload ∧
      (blofinStore_update d payload now w).1.server_received_ms = some now ∧
      (blofinStore_update d payload now w).1.fresh = true) ∧
    (∀ now2 ttl, (blofinStore_latest (blofinStore_update d payload now w).1 now2 ttl).data =
      some payload) ∧
    (∀ dd ∈ (blofinStore_update d payload now w).2.2,
      dd.canonicalFile = d.canonicalFile ∨
        dd.canonicalFile = some (FileContent.whole (blofinStore_update d payload now w).1)) ∧
    (∀ dd ∈ (blofinStore_update d payload now w).2.2,
      dd.canonicalFile ≠ some FileContent.truncated) ∧
    (w = .ok → (blofinStore_update d payload now w).2.1.canonicalFile =
      some (FileContent.whole (blofinStore_update d payload now w).1)) := by
  cases w <;>
    refine ⟨⟨rfl, rfl, rfl⟩, fun now2 ttl => rfl, ?_, ?_, ?_⟩ <;>
    simp [blofinStore_update, write_atomic, hd]

/-- C7 (witness): the update theorem at a concrete store and payload. -/
theorem c7_update_atomic_swallow_witness :
    (blofinStore_update ⟨none, none⟩ ⟨some 41, []⟩ 99 .ok).1.data = some ⟨some 41, []⟩ :=
  (c7_update_atomic_swallow ⟨none, none⟩ ⟨some 41, []⟩ 99 .ok (by decide)).1.1
